import Mathlib

/-!
Verification development for the static-site translator core
(`src/core/html-processor.ts` and `src/core/translator.ts`).

The HTML documents handled by the code are modelled as parsed DOM trees
(`Node`), since the code itself only manipulates documents through the
cheerio DOM API; cheerio's parser and serializer are external libraries,
and the serializer is modelled by `serializeNode` (attributes rendered as
` key="value"`, void elements without closing tags, `decodeEntities:false`
so text is emitted verbatim).  JavaScript strings are modelled as Lean
`String`s, JavaScript `Map`s and plain objects as insertion-ordered
association lists.
-/

/-! ## JavaScript string primitives -/

/-- Characters treated as whitespace by the modelled fragment of JavaScript
`String.prototype.trim` (ASCII part of the ECMAScript WhiteSpace/LineTerminator
sets). -/
def jsWsChar (c : Char) : Bool :=
  c = ' ' || c = '\t' || c = '\n' || c = '\r' || c = Char.ofNat 11 || c = Char.ofNat 12

/-- JavaScript `String.prototype.trim` (ASCII whitespace fragment). -/
def jsTrim (s : String) : String :=
  ⟨((s.data.dropWhile jsWsChar).reverse.dropWhile jsWsChar).reverse⟩

/-- Does `sub` occur as a contiguous sublist of the second argument? -/
def listContains (sub : List Char) : List Char → Bool
  | [] => sub.isEmpty
  | c :: rest => sub.isPrefixOf (c :: rest) || listContains sub rest

/-- Does the string `sub` occur as a substring of `s`? -/
def strContains (s sub : String) : Bool :=
  listContains sub.data s.data

/-- The backquote character (written by code point to keep the source plain). -/
def backquoteChar : Char := Char.ofNat 96

/-- The single-quote character (written by code point to keep the source plain). -/
def singleQuoteChar : Char := Char.ofNat 39

/-- Expansion of a JavaScript `String.prototype.replace` replacement string:
`$$` produces a literal dollar, `$&` the matched substring, a dollar followed
by a backquote the part of the subject before the match, and a dollar followed
by a single quote the part after the match.  The placeholder patterns used by
the program contain no capture groups, so `$1`…`$9` stay literal, as in
JavaScript.  This models the replacement semantics of the call
`content.replace(new RegExp(placeholder, 'g'), original)` in
`restorePlaceholders` (html-processor.ts lines 21-27). -/
def jsDollarExpand (matched before after : List Char) : List Char → List Char
  | [] => []
  | [c] => [c]
  | c :: d :: rest2 =>
    if c = '$' then
      if d = '$' then '$' :: jsDollarExpand matched before after rest2
      else if d = '&' then matched ++ jsDollarExpand matched before after rest2
      else if d = backquoteChar then before ++ jsDollarExpand matched before after rest2
      else if d = singleQuoteChar then after ++ jsDollarExpand matched before after rest2
      else c :: jsDollarExpand matched before after (d :: rest2)
    else c :: jsDollarExpand matched before after (d :: rest2)

/-- One left-to-right pass of a global, non-overlapping replacement of the
literal pattern `pat` (the placeholder tokens contain no regex metacharacters)
in a subject string, with JavaScript `$`-expansion of the replacement.
`seen` is the reversed portion of the subject already consumed; `fuel` bounds
the recursion (callers pass the subject length plus one, which suffices for
the nonempty patterns the program uses). -/
def jsReplaceLoop (pat repl : List Char) : Nat → List Char → List Char → List Char
  | 0, _, s => s
  | _ + 1, _, [] => []
  | fuel + 1, seen, c :: rest =>
    if pat.isPrefixOf (c :: rest) then
      jsDollarExpand pat seen.reverse ((c :: rest).drop pat.length) repl ++
        jsReplaceLoop pat repl fuel (pat.reverse ++ seen) ((c :: rest).drop pat.length)
    else
      c :: jsReplaceLoop pat repl fuel (c :: seen) rest

/-- JavaScript `s.replace(new RegExp(pat, 'g'), repl)` for a literal pattern
`pat` without regex metacharacters. -/
def jsReplaceAll (s pat repl : String) : String :=
  ⟨jsReplaceLoop pat.data repl.data (s.data.length + 1) [] s.data⟩

/-- Decimal digit character for a value below ten. -/
def digitChar (n : Nat) : Char :=
  Char.ofNat (48 + n % 10)

/-- Decimal digits of `n` (most significant first), with explicit fuel. -/
def natReprAux : Nat → Nat → List Char
  | 0, _ => []
  | fuel + 1, n => if n = 0 then [] else natReprAux fuel (n / 10) ++ [digitChar (n % 10)]

/-- Decimal rendering of a natural number, as produced by JavaScript string
interpolation of a nonnegative integer. -/
def natRepr (n : Nat) : String :=
  if n = 0 then "0" else ⟨natReprAux n n⟩

/-- Decimal rendering of an integer, as produced by JavaScript string
interpolation. -/
def intRepr (i : Int) : String :=
  match i with
  | .ofNat n => natRepr n
  | .negSucc n => "-" ++ natRepr (n + 1)

/-- The synthetic placeholder token for index `i`:
`` `__SKIP_PLACEHOLDER_${i}__` `` (html-processor.ts line 16). -/
def mkToken (i : Nat) : String :=
  "__SKIP_PLACEHOLDER_" ++ natRepr i ++ "__"

/-- Does `s` match the regular expression `/^__SKIP_PLACEHOLDER_\d+__$/`
used by `extractBlockElements` (html-processor.ts lines 236 and 241)? -/
def isSkipToken (s : String) : Bool :=
  let pre := "__SKIP_PLACEHOLDER_".data
  if pre.isPrefixOf s.data then
    let rest := s.data.drop pre.length
    let digits := rest.takeWhile Char.isDigit
    decide (digits ≠ []) && decide (rest.drop digits.length = ['_', '_'])
  else false

/-! ## Association lists: JavaScript objects and Maps

A JavaScript plain object or `Map` is modelled as an insertion-ordered
association list: `jsObjSet` overwrites the value of an existing key in
place and appends a new key at the end, exactly like assignment to an
object property or `Map.prototype.set`; `jsObjGet` reads a key. -/

/-- Property read on a JavaScript object / `Map.prototype.get`: the value
of the (unique) binding of the key, scanned in insertion order. -/
def jsObjGet : List (String × String) → String → Option String
  | [], _ => none
  | (k2, v) :: rest, k => if k2 = k then some v else jsObjGet rest k

/-- Property assignment on a JavaScript object / `Map.prototype.set`. -/
def jsObjSet : List (String × String) → String → String → List (String × String)
  | [], k, v => [(k, v)]
  | (k', v') :: rest, k, v =>
    if k' = k then (k, v) :: rest else (k', v') :: jsObjSet rest k v

/-- Values of a record are nonempty whenever their keys are: the invariant
preserved by the result-building folds of the translation client. -/
def objValsOk (l : List (String × String)) : Prop :=
  ∀ kv ∈ l, kv.1 ≠ "" → kv.2 ≠ ""

/-! ## DOM model -/

/-- A parsed DOM node, as manipulated through the cheerio API: a text node,
a comment, or an element with a tag name (lower-cased by the HTML parser),
an insertion-ordered attribute list, and an ordered child list. -/
inductive Node where
  | text (s : String)
  | comment (s : String)
  | elem (tag : String) (attrs : List (String × String)) (children : List Node)

/-- Tags serialized without children or a closing tag (HTML void elements,
as in cheerio's serializer). -/
def voidTags : List String :=
  ["area", "base", "br", "col", "embed", "hr", "img", "input", "link",
   "meta", "param", "source", "track", "wbr"]

/-- Attribute rendering of cheerio's serializer: each attribute becomes
` key="value"` (with `decodeEntities:false` the value is emitted verbatim). -/
def attrsHtml (attrs : List (String × String)) : String :=
  String.join (attrs.map (fun kv => " " ++ kv.1 ++ "=\"" ++ kv.2 ++ "\""))

/-- The repository's own attribute serialization `getAttributes`
(html-processor.ts lines 473-482): a leading space followed by
space-separated `key="value"` pairs, or the empty string when the element
has no attributes. -/
def getAttributesStr (attrs : List (String × String)) : String :=
  match attrs with
  | [] => ""
  | _ => " " ++ String.intercalate " " (attrs.map (fun kv => kv.1 ++ "=\"" ++ kv.2 ++ "\""))

mutual

/-- Cheerio's HTML serializer (`$.html()` over this node). -/
def serializeNode : Node → String
  | .text s => s
  | .comment s => "<!--" ++ s ++ "-->"
  | .elem t a c =>
    if voidTags.contains t then "<" ++ t ++ attrsHtml a ++ ">"
    else "<" ++ t ++ attrsHtml a ++ ">" ++ serializeList c ++ "</" ++ t ++ ">"

/-- Serialization of a node list (the inner HTML of an element, `$elem.html()`). -/
def serializeList : List Node → String
  | [] => ""
  | n :: rest => serializeNode n ++ serializeList rest

end

mutual

/-- The concatenated text of a node (`$elem.text()`); comments contribute
nothing. -/
def textContent : Node → String
  | .text s => s
  | .comment _ => ""
  | .elem _ _ c => textContentList c

/-- The concatenated text of a node list. -/
def textContentList : List Node → String
  | [] => ""
  | n :: rest => textContent n ++ textContentList rest

end

/-- First value of the named attribute (`$elem.attr(name)`); attribute names
are unique in parsed documents. -/
def attrOf (n : Node) (name : String) : Option String :=
  match n with
  | .elem _ a _ => (a.find? (fun kv => kv.1 = name)).map (fun kv => kv.2)
  | _ => none

/-- Is the node an element with the given tag? -/
def isTag (t : String) (n : Node) : Bool :=
  match n with
  | .elem tag _ _ => tag = t
  | _ => false

/-- Truthiness of an attribute read: present with a nonempty value. -/
def truthyAttr (n : Node) (name : String) : Bool :=
  match attrOf n name with
  | some v => decide (v ≠ "")
  | none => false

/-- Set an attribute (`$elem.attr(name, value)`): update an existing key in
place, otherwise append. -/
def setAttrList : List (String × String) → String → String → List (String × String)
  | [], k, v => [(k, v)]
  | (k', v') :: rest, k, v =>
    if k' = k then (k, v) :: rest else (k', v') :: setAttrList rest k v

/-- Remove an attribute (`$elem.removeAttr(name)`). -/
def removeAttrList (l : List (String × String)) (k : String) : List (String × String) :=
  l.filter (fun kv => kv.1 ≠ k)

mutual

/-- All elements of the subtree (the node itself included) satisfying `p`,
in document (pre-)order: the matched set of a cheerio selector applied to
the document. -/
def matchesIn (p : Node → Bool) : Node → List Node
  | .text s => if p (.text s) then [.text s] else []
  | .comment s => if p (.comment s) then [.comment s] else []
  | .elem t a c =>
    (if p (.elem t a c) then [.elem t a c] else []) ++ matchesInList p c

/-- All elements of a forest satisfying `p`, in document order. -/
def matchesInList (p : Node → Bool) : List Node → List Node
  | [] => []
  | n :: rest => matchesIn p n ++ matchesInList p rest

end

/-! ## Configuration -/

/-- The `safety` section of `TranslatorConfig` (types.ts); `none` models an
absent field. -/
structure SafetyCfg where
  preserveScripts : Option Bool := none
  preserveStyles : Option Bool := none
  preserveCodeBlocks : Option Bool := none

/-- The `seo` section of `TranslatorConfig` (types.ts). -/
structure SeoCfg where
  injectHreflang : Option Bool := none
  baseUrl : Option String := none

/-- The configuration fields of `TranslatorConfig` (types.ts) consumed by the
HTML processor. -/
structure TranslatorConfig where
  targetLanguages : List String := []
  safety : SafetyCfg := {}
  seo : SeoCfg := {}

/-- The guard `this.config.safety?.preserveScripts !== false`
(html-processor.ts line 43). -/
def scriptsPreserved (c : TranslatorConfig) : Bool :=
  decide (c.safety.preserveScripts ≠ some false)

/-- The guard `this.config.safety?.preserveStyles !== false`
(html-processor.ts line 52). -/
def stylesPreserved (c : TranslatorConfig) : Bool :=
  decide (c.safety.preserveStyles ≠ some false)

/-- The guard `this.config.safety?.preserveCodeBlocks !== false`
(html-processor.ts line 61). -/
def codeBlocksPreserved (c : TranslatorConfig) : Bool :=
  decide (c.safety.preserveCodeBlocks ≠ some false)

/-! ## JSON fragment

`JSON.parse` and `JSON.stringify` are builtins of the JavaScript runtime,
external to the repository.  They are modelled on the scalar fragment of
JSON (whitespace-padded `null`, boolean, and integer literals); inputs
outside this fragment are treated as parse failures.  The fragment is
enough to exercise every JSON-dependent branch of the extractor. -/

/-- A JSON value of the modelled scalar fragment. -/
inductive JVal where
  | jnull
  | jbool (b : Bool)
  | jint (n : Int)
deriving DecidableEq

/-- The four JSON whitespace characters. -/
def jsonWsChar (c : Char) : Bool :=
  c = ' ' || c = '\t' || c = '\n' || c = '\r'

/-- Is the remainder of the input nothing but JSON whitespace? -/
def jsonTokenEnd (l : List Char) : Bool :=
  (l.dropWhile jsonWsChar).isEmpty

/-- Numeric value of a digit string. -/
def parseIntDigits (ds : List Char) : Nat :=
  ds.foldl (fun a c => a * 10 + (c.toNat - 48)) 0

/-- Modelled `JSON.parse` on the scalar fragment. -/
def jsonParse (s : String) : Option JVal :=
  let cs := s.data.dropWhile jsonWsChar
  if "null".data.isPrefixOf cs && jsonTokenEnd (cs.drop 4) then some .jnull
  else if "true".data.isPrefixOf cs && jsonTokenEnd (cs.drop 4) then some (.jbool true)
  else if "false".data.isPrefixOf cs && jsonTokenEnd (cs.drop 5) then some (.jbool false)
  else
    let neg := cs.head? = some (Char.ofNat 45)
    let ds := if neg then cs.drop 1 else cs
    let digits := ds.takeWhile Char.isDigit
    if decide (digits ≠ []) && (decide (digits.length = 1) || decide (digits.head? ≠ some (Char.ofNat 48)))
        && jsonTokenEnd (ds.drop digits.length) then
      some (.jint (if neg then -(parseIntDigits digits : Int) else (parseIntDigits digits : Int)))
    else none

/-- Modelled `JSON.stringify` on the scalar fragment. -/
def jsonStringify : JVal → String
  | .jnull => "null"
  | .jbool true => "true"
  | .jbool false => "false"
  | .jint n => intRepr n

/-! ## Translatable unit extraction (html-processor.ts lines 29-253)

Every extraction site of `extractTranslatableContent` pushes one entry onto
the `translatable` array and performs one paired `mapping.set` with the same
key; a unit is therefore modelled as a triple of the key, the pushed text,
and the mapped text, and the source's `translatable` and `mapping` are the
two projections `unitTexts` and `unitMapping`. -/

/-- One extracted translation unit: its key, the value pushed onto
`translatable`, and the value stored into `mapping` under the key. -/
structure ExUnit where
  key : String
  text : String
  mapped : String
deriving DecidableEq

/-- The `translatable` array: the pushed texts in order. -/
def unitTexts (us : List ExUnit) : List String :=
  us.map (fun u => u.text)

/-- The `mapping` entries in insertion order. -/
def unitMapping (us : List ExUnit) : List (String × String) :=
  us.map (fun u => (u.key, u.mapped))

/-- `Map.prototype.get` over insertion-ordered entries where a later `set`
of the same key overwrites an earlier one: the last binding wins. -/
def jsMapGet : List (String × String) → String → Option String
  | [], _ => none
  | (k, v) :: rest, q =>
    match jsMapGet rest q with
    | some v2 => some v2
    | none => if k = q then some v else none

/-- Verbatim outer markup captured for a protected element: the tag with the
repository's `getAttributes` rendering around the serialized inner content
(html-processor.ts lines 47, 56, 66). -/
def protRaw : Node → String
  | .elem t a c => "<" ++ t ++ getAttributesStr a ++ ">" ++ serializeList c ++ "</" ++ t ++ ">"
  | _ => ""

mutual

/-- Replacement step of one protect pass: every outermost element matching
`p` is replaced by a placeholder-token text node; the counter advances over
all matches of the snapshot in document order, nested matches included
(nested matches are detached together with their ancestor, so they receive a
vault entry and an index but never appear in the tree — exactly the effect
of iterating a cheerio snapshot whose earlier `replaceWith` detached them). -/
def protectNode (p : Node → Bool) (idx : Nat) : Node → (Node × Nat)
  | .text s => if p (.text s) then (.text (mkToken idx), idx + 1) else (.text s, idx)
  | .comment s => if p (.comment s) then (.text (mkToken idx), idx + 1) else (.comment s, idx)
  | .elem t a c =>
    if p (.elem t a c) then
      (.text (mkToken idx), idx + (matchesIn p (.elem t a c)).length)
    else
      let r := protectList p idx c
      (.elem t a r.1, r.2)

/-- Replacement step of one protect pass over a forest. -/
def protectList (p : Node → Bool) (idx : Nat) : List Node → (List Node × Nat)
  | [] => ([], idx)
  | n :: rest =>
    let r1 := protectNode p idx n
    let r2 := protectList p r1.2 rest
    (r1.1 :: r2.1, r2.2)

end

/-- Vault entries produced by one protect pass: one entry per snapshot match
in document order, keyed by consecutive placeholder tokens. -/
def vaultEntries (p : Node → Bool) (idx : Nat) (doc : Node) : List (String × String) :=
  ((matchesIn p doc).enumFrom idx).map (fun im => (mkToken im.1, protRaw im.2))

/-- One protect pass (`$(sel).each(... createPlaceholder ... replaceWith ...)`
under its configuration guard), threading the document, the placeholder
counter, and the vault. -/
def runProtectPass (enabled : Bool) (p : Node → Bool)
    (st : Node × Nat × List (String × String)) : Node × Nat × List (String × String) :=
  if enabled then
    let entries := vaultEntries p st.2.1 st.1
    let r := protectNode p st.2.1 st.1
    (r.1, r.2, st.2.2 ++ entries)
  else st

/-- Matches `pre` and `code` elements (the selector `'pre, code'`). -/
def isPreCode (n : Node) : Bool :=
  isTag "pre" n || isTag "code" n

/-- First element of the matched set (`$(sel).attr(...)` reads the first
matched element). -/
def firstMatch (p : Node → Bool) (doc : Node) : Option Node :=
  (matchesIn p doc).head?

/-- The document title unit (html-processor.ts lines 72-77): the
concatenated text of every `title` element, kept when nonempty. -/
def titleUnits (doc : Node) : List ExUnit :=
  let t := String.join ((matchesIn (isTag "title") doc).map textContent)
  if t = "" then [] else [⟨"__TITLE__", t, t⟩]

/-- Matches a `meta` element whose attribute `attrName` equals `attrVal`. -/
def isMetaNamed (attrName attrVal : String) (n : Node) : Bool :=
  isTag "meta" n && decide (attrOf n attrName = some attrVal)

/-- One singleton metadata unit (html-processor.ts lines 80-144): the
`content` attribute of the first matching `meta` element, kept when present
and nonempty. -/
def metaUnits (doc : Node) (attrName attrVal key : String) : List ExUnit :=
  match firstMatch (isMetaNamed attrName attrVal) doc with
  | some m =>
    match attrOf m "content" with
    | some c => if c = "" then [] else [⟨key, c, c⟩]
    | none => []
  | none => []

/-- Matches `script[type="application/ld+json"]`. -/
def isJsonLdScript (n : Node) : Bool :=
  isTag "script" n && decide (attrOf n "type" = some "application/ld+json")

/-- Inner HTML of an element (`$elem.html()`). -/
def innerHtml (n : Node) : String :=
  match n with
  | .elem _ _ c => serializeList c
  | _ => ""

/-- JSON-LD units (html-processor.ts lines 147-160): for the `index`-th
matched typed script with nonempty content that parses as JSON, the pushed
text is `JSON.stringify` of the parsed value while the mapped text is the
raw content. -/
def jsonLdUnits (doc : Node) : List ExUnit :=
  ((matchesIn isJsonLdScript doc).enum).filterMap (fun ie =>
    let content := innerHtml ie.2
    if content = "" then none
    else
      match jsonParse content with
      | some j => some ⟨"__JSON_LD_" ++ natRepr ie.1 ++ "__", jsonStringify j, content⟩
      | none => none)

/-- Does the element carry the named attribute (`[attr]` selector)? -/
def hasAttr (name : String) (n : Node) : Bool :=
  (attrOf n name).isSome

/-- Attribute units (html-processor.ts lines 163-190): elements matched by
`img[alt]`, `[title]` or `[placeholder]`, indexed over the matched set, kept
when the attribute value is nonempty and does not trim to nothing. -/
def attrUnits (doc : Node) (selTag : Option String) (attrName keyStem : String) : List ExUnit :=
  ((matchesIn (fun n =>
      (match selTag with | some t => isTag t n | none => true) && hasAttr attrName n) doc).enum).filterMap
    (fun ie =>
      match attrOf ie.2 attrName with
      | some a =>
        if decide (a ≠ "") && decide (jsTrim a ≠ "") then
          some ⟨keyStem ++ natRepr ie.1 ++ "__", a, a⟩
        else none
      | none => none)

/-- The block-level tag names of `extractBlockElements`
(html-processor.ts lines 208-213). -/
def blockTags : List String :=
  ["p", "h1", "h2", "h3", "h4", "h5", "h6",
   "li", "td", "th", "dt", "dd",
   "blockquote", "figcaption", "caption",
   "label", "legend", "summary"]

/-- Is this tag in the block-level list? -/
def isBlockTag (t : String) : Bool :=
  blockTags.contains t

mutual

/-- Does the subtree rooted at this node contain a block-level element
(the node itself included)? -/
def nodeHasBlock : Node → Bool
  | .elem t _ c => isBlockTag t || listHasBlock c
  | _ => false

/-- Does the forest contain a block-level element? -/
def listHasBlock : List Node → Bool
  | [] => false
  | n :: rest => nodeHasBlock n || listHasBlock rest

end

/-- Accumulator of `extractBlockElements`: the units extracted so far over
the whole extraction pass (block keys are numbered by `translatable.length`)
plus, for specification purposes only, the list of elements chosen as block
units. -/
structure BlockAcc where
  units : List ExUnit
  chosen : List Node

mutual

/-- The block extraction pass `extractBlockElements`
(html-processor.ts lines 201-253), as a document-order traversal.  `inBody`
holds for strict descendants of a `body` element, mirroring
`$('body').find(blockSelector)`.  A candidate is skipped when it already
carries a truthy `data-translate-key`, contains a block-level descendant,
has empty inner HTML, has text that trims to nothing or to a lone
placeholder token, or has inner HTML that is a lone placeholder token;
otherwise its inner HTML becomes one unit keyed by the current length of
`translatable` and the element is marked with the key.  Conditions depend
only on the element's own subtree, which is unmodified when the element is
visited (document order marks ancestors first, and marks never touch a
descendant's subtree), so the single traversal reproduces the snapshot
iteration of the source. -/
def blockPassNode (inBody : Bool) : BlockAcc → Node → (Node × BlockAcc)
  | acc, .text s => (.text s, acc)
  | acc, .comment s => (.comment s, acc)
  | acc, .elem t a c =>
    let inB := inBody || t = "body"
    if inBody && isBlockTag t
        && !truthyAttr (.elem t a c) "data-translate-key"
        && !listHasBlock c
        && decide (serializeList c ≠ "")
        && decide (jsTrim (textContentList c) ≠ "")
        && !isSkipToken (jsTrim (textContentList c))
        && !isSkipToken (serializeList c) then
      let key := "__BLOCK_" ++ natRepr acc.units.length ++ "__"
      let acc1 : BlockAcc :=
        ⟨acc.units ++ [⟨key, serializeList c, serializeList c⟩], acc.chosen ++ [.elem t a c]⟩
      let r := blockPassList inB acc1 c
      (.elem t (setAttrList a "data-translate-key" key) r.1, r.2)
    else
      let r := blockPassList inB acc c
      (.elem t a r.1, r.2)

/-- The block extraction pass over a forest. -/
def blockPassList (inBody : Bool) : BlockAcc → List Node → (List Node × BlockAcc)
  | acc, [] => ([], acc)
  | acc, n :: rest =>
    let r1 := blockPassNode inBody acc n
    let r2 := blockPassList inBody r1.2 rest
    (r1.1 :: r2.1, r2.2)

end

/-- The result of `extractTranslatableContent`: the units (projections give
`translatable` and `mapping`), the chosen block elements (specification
ghost), the placeholder vault, and the processed document with its
serialization. -/
structure ExtractionOut where
  units : List ExUnit
  chosenBlocks : List Node
  vault : List (String × String)
  processedTree : Node
  processedHtml : String

/-- The units collected before the block pass, in source order: singleton
metadata (html-processor.ts lines 71-144), JSON-LD blocks (lines 146-160),
and the three attribute kinds (lines 162-190). -/
def preBlockUnits (doc3 : Node) : List ExUnit :=
  titleUnits doc3 ++
  metaUnits doc3 "name" "description" "__META_DESC__" ++
  metaUnits doc3 "name" "keywords" "__META_KEYWORDS__" ++
  metaUnits doc3 "property" "og:title" "__OG_TITLE__" ++
  metaUnits doc3 "property" "og:description" "__OG_DESC__" ++
  metaUnits doc3 "property" "og:site_name" "__OG_SITE_NAME__" ++
  metaUnits doc3 "property" "og:image:alt" "__OG_IMAGE_ALT__" ++
  metaUnits doc3 "name" "twitter:title" "__TWITTER_TITLE__" ++
  metaUnits doc3 "name" "twitter:description" "__TWITTER_DESC__" ++
  metaUnits doc3 "name" "twitter:image:alt" "__TWITTER_IMAGE_ALT__" ++
  jsonLdUnits doc3 ++
  attrUnits doc3 (some "img") "alt" "__IMG_ALT_" ++
  attrUnits doc3 none "title" "__TITLE_ATTR_" ++
  attrUnits doc3 none "placeholder" "__PLACEHOLDER_"

/-- The ten fixed keys of the singleton-metadata units (html-processor.ts
lines 74-141); every other unit kind carries an indexed key. -/
def metadataKeys : List String :=
  ["__TITLE__", "__META_DESC__", "__META_KEYWORDS__",
   "__OG_TITLE__", "__OG_DESC__", "__OG_SITE_NAME__", "__OG_IMAGE_ALT__",
   "__TWITTER_TITLE__", "__TWITTER_DESC__", "__TWITTER_IMAGE_ALT__"]

/-- The three protect passes of `extractTranslatableContent`, in source
order, threading one placeholder counter and vault. -/
def protectPasses (cfg : TranslatorConfig) (doc : Node) : Node × Nat × List (String × String) :=
  runProtectPass (codeBlocksPreserved cfg) isPreCode
    (runProtectPass (stylesPreserved cfg) (isTag "style")
      (runProtectPass (scriptsPreserved cfg) (isTag "script") (doc, 0, [])))

/-- The extractor `extractTranslatableContent` (html-processor.ts lines
29-199): protect scripts, styles and pre/code under their configuration
guards (the placeholder counter and vault are reset per document), then
collect singleton metadata, JSON-LD, attribute, and block units in source
order, and serialize the processed document. -/
def extractTranslatableContent (cfg : TranslatorConfig) (doc : Node) : ExtractionOut :=
  let st3 := protectPasses cfg doc
  let rb := blockPassNode false ⟨preBlockUnits st3.1, []⟩ st3.1
  ⟨rb.2.units, rb.2.chosen, st3.2.2, rb.1, serializeNode rb.1⟩

/-- Placeholder restoration (html-processor.ts lines 21-27): fold the vault
in insertion order, each entry applied as a global JavaScript
`String.prototype.replace` of the token by the captured markup. -/
def restorePlaceholders (vault : List (String × String)) (content : String) : String :=
  vault.foldl (fun acc e => jsReplaceAll acc e.1 e.2) content

/-! ## Reinjection (html-processor.ts lines 282-466)

The source reloads the processed HTML with cheerio before reinjection;
parsing the serialization of a well-formed tree yields the tree back, so the
model passes the processed tree directly.  Fragment parsing of a translated
block body (`$elem.html(string)`) is cheerio's parser, an external library:
it is passed in as the function argument `parseFrag`. -/

/-- Truthiness test of `translations[key]`: present with a nonempty value. -/
def jsGetTruthy (l : List (String × String)) (k : String) : Option String :=
  match jsObjGet l k with
  | some v => if v = "" then none else some v
  | none => none

mutual

/-- Set the text of every element matched by `p` (`$(sel).text(v)`): the
children of a matched element are replaced by one text node; matches nested
below a matched element were detached by the outer replacement, so they are
not revisited. -/
def setTextAllNode (p : Node → Bool) (v : String) : Node → Node
  | .text s => .text s
  | .comment s => .comment s
  | .elem t a c =>
    if p (.elem t a c) then .elem t a [.text v]
    else .elem t a (setTextAllList p v c)

/-- Set the text of every matched element in a forest. -/
def setTextAllList (p : Node → Bool) (v : String) : List Node → List Node
  | [] => []
  | n :: rest => setTextAllNode p v n :: setTextAllList p v rest

end

mutual

/-- Set an attribute on every element matched by `p`
(`$(sel).attr(name, v)`). -/
def setAttrAllNode (p : Node → Bool) (name v : String) : Node → Node
  | .text s => .text s
  | .comment s => .comment s
  | .elem t a c =>
    let a2 := if p (.elem t a c) then setAttrList a name v else a
    .elem t a2 (setAttrAllList p name v c)

/-- Set an attribute on every matched element of a forest. -/
def setAttrAllList (p : Node → Bool) (name v : String) : List Node → List Node
  | [] => []
  | n :: rest => setAttrAllNode p name v n :: setAttrAllList p name v rest

end

mutual

/-- Reinjection of JSON-LD blocks (html-processor.ts lines 335-346): the
`index`-th matched typed script whose key has a truthy translation gets its
content replaced by the re-serialization of the parsed translation; on parse
failure the block is left untouched.  The index advances over every match. -/
def jsonLdApplyNode (tr : List (String × String)) (i : Nat) : Node → (Node × Nat)
  | .text s => (.text s, i)
  | .comment s => (.comment s, i)
  | .elem t a c =>
    if isJsonLdScript (.elem t a c) then
      match jsGetTruthy tr ("__JSON_LD_" ++ natRepr i ++ "__") with
      | some v =>
        match jsonParse v with
        | some j => (.elem t a [.text (jsonStringify j)], i + 1)
        | none => (.elem t a c, i + 1)
      | none => (.elem t a c, i + 1)
    else
      let r := jsonLdApplyList tr i c
      (.elem t a r.1, r.2)

/-- Reinjection of JSON-LD blocks over a forest. -/
def jsonLdApplyList (tr : List (String × String)) (i : Nat) : List Node → (List Node × Nat)
  | [] => ([], i)
  | n :: rest =>
    let r1 := jsonLdApplyNode tr i n
    let r2 := jsonLdApplyList tr r1.2 rest
    (r1.1 :: r2.1, r2.2)

end

mutual

/-- Reinjection of one attribute kind (html-processor.ts lines 349-370):
the `index`-th element matched by `p` gets the attribute set when its key
has a truthy translation; the index advances over every match, in document
order. -/
def attrApplyNode (tr : List (String × String)) (p : Node → Bool)
    (attrName keyStem : String) (i : Nat) : Node → (Node × Nat)
  | .text s => (.text s, i)
  | .comment s => (.comment s, i)
  | .elem t a c =>
    let matched := p (.elem t a c)
    let a2 :=
      if matched then
        match jsGetTruthy tr (keyStem ++ natRepr i ++ "__") with
        | some v => setAttrList a attrName v
        | none => a
      else a
    let r := attrApplyList tr p attrName keyStem (if matched then i + 1 else i) c
    (.elem t a2 r.1, r.2)

/-- Reinjection of one attribute kind over a forest. -/
def attrApplyList (tr : List (String × String)) (p : Node → Bool)
    (attrName keyStem : String) (i : Nat) : List Node → (List Node × Nat)
  | [] => ([], i)
  | n :: rest =>
    let r1 := attrApplyNode tr p attrName keyStem i n
    let r2 := attrApplyList tr p attrName keyStem r1.2 rest
    (r1.1 :: r2.1, r2.2)

end

mutual

/-- `applyBlockTranslations` (html-processor.ts lines 391-407): every
element carrying `data-translate-key` whose key and translation are truthy
gets its inner HTML replaced by the parsed translation and the tagging
attribute removed; otherwise it is left as is (the attribute stays).  New
nodes produced by the replacement are not in the snapshot, so they are not
revisited. -/
def blockApplyNode (parseFrag : String → List Node) (tr : List (String × String)) : Node → Node
  | .text s => .text s
  | .comment s => .comment s
  | .elem t a c =>
    match attrOf (.elem t a c) "data-translate-key" with
    | some k =>
      if k = "" then .elem t a (blockApplyList parseFrag tr c)
      else
        match jsGetTruthy tr k with
        | some v => .elem t (removeAttrList a "data-translate-key") (parseFrag v)
        | none => .elem t a (blockApplyList parseFrag tr c)
    | none => .elem t a (blockApplyList parseFrag tr c)

/-- `applyBlockTranslations` over a forest. -/
def blockApplyList (parseFrag : String → List Node) (tr : List (String × String)) : List Node → List Node
  | [] => []
  | n :: rest => blockApplyNode parseFrag tr n :: blockApplyList parseFrag tr rest

end

/-- Matches `link[rel="alternate"][hreflang]` (html-processor.ts line 441). -/
def isAlternateLink (n : Node) : Bool :=
  isTag "link" n && decide (attrOf n "rel" = some "alternate") && hasAttr "hreflang" n

mutual

/-- Remove every element matched by `p` from a subtree (`$(sel).remove()`);
the predicates used here match only elements. -/
def removeMatchingNode (p : Node → Bool) : Node → Node
  | .text s => .text s
  | .comment s => .comment s
  | .elem t a c => .elem t a (removeMatchingList p c)

/-- Remove every matched element from a forest. -/
def removeMatchingList (p : Node → Bool) : List Node → List Node
  | [] => []
  | n :: rest =>
    if p n then removeMatchingList p rest
    else removeMatchingNode p n :: removeMatchingList p rest

end

mutual

/-- Append the given nodes to the children of every `head` element
(`$('head').append(...)`). -/
def appendToHeadsNode (ns : List Node) : Node → Node
  | .text s => .text s
  | .comment s => .comment s
  | .elem t a c =>
    if t = "head" then .elem t a (appendToHeadsList ns c ++ ns)
    else .elem t a (appendToHeadsList ns c)

/-- Append the given nodes inside every `head` element of a forest. -/
def appendToHeadsList (ns : List Node) : List Node → List Node
  | [] => []
  | n :: rest => appendToHeadsNode ns n :: appendToHeadsList ns rest

end

/-- Keep the first occurrence of each element
(`filter((lang, index, self) => self.indexOf(lang) === index)`). -/
def dedupFirstAux (seen : List String) : List String → List String
  | [] => []
  | x :: rest =>
    if seen.contains x then dedupFirstAux seen rest
    else x :: dedupFirstAux (seen ++ [x]) rest

/-- Keep the first occurrence of each element of the list. -/
def dedupFirst (l : List String) : List String :=
  dedupFirstAux [] l

/-- `baseUrl.replace(/\/$/, '')`: drop one trailing slash when present. -/
def stripTrailingSlash (s : String) : String :=
  match s.data.reverse with
  | [] => s
  | c :: rest => if c = '/' then ⟨rest.reverse⟩ else s

/-- The parsed form of one appended hreflang link
(html-processor.ts lines 456-465): the rendered language is marked
`x-default`, the URL is absolute under `baseUrl` or root-relative. -/
def hreflangLink (currentLanguage lang : String) (baseUrl : Option String) : Node :=
  let h := if lang = currentLanguage then "x-default" else lang
  let href :=
    match baseUrl with
    | some b => stripTrailingSlash b ++ "/" ++ lang ++ "/"
    | none => "/" ++ lang ++ "/"
  .elem "link" [("rel", "alternate"), ("hreflang", h), ("href", href)] []

/-- `injectHreflangTags` (html-processor.ts lines 439-466): remove existing
alternate links, then append one link per configured target language plus
the source language (`'en'`, from `getSourceLanguage`), first occurrences
only, each followed by a newline text node. -/
def injectHreflangTags (cfg : TranslatorConfig) (currentLanguage : String) (tree : Node) : Node :=
  let tree1 := removeMatchingNode isAlternateLink tree
  let langs := dedupFirst (cfg.targetLanguages ++ ["en"])
  langs.foldl
    (fun t lang => appendToHeadsNode [hreflangLink currentLanguage lang cfg.seo.baseUrl, .text "\n"] t)
    tree1

/-- `applyTranslations` (html-processor.ts lines 282-389): apply singleton
metadata, JSON-LD, attribute and block translations in source order, inject
hreflang links unless disabled, set the root `lang` attribute, serialize,
and restore the placeholder vault. -/
def applyTranslations (parseFrag : String → List Node) (cfg : TranslatorConfig)
    (vault : List (String × String)) (tree : Node)
    (translations : List (String × String)) (targetLanguage : String) : String :=
  let t1 :=
    match jsGetTruthy translations "__TITLE__" with
    | some v => setTextAllNode (isTag "title") v tree
    | none => tree
  let applyMeta := fun (t : Node) (attrName attrVal key : String) =>
    match jsGetTruthy translations key with
    | some v => setAttrAllNode (isMetaNamed attrName attrVal) "content" v t
    | none => t
  let t2 := applyMeta t1 "name" "description" "__META_DESC__"
  let t3 := applyMeta t2 "name" "keywords" "__META_KEYWORDS__"
  let t4 := applyMeta t3 "property" "og:title" "__OG_TITLE__"
  let t5 := applyMeta t4 "property" "og:description" "__OG_DESC__"
  let t6 := applyMeta t5 "property" "og:site_name" "__OG_SITE_NAME__"
  let t7 := applyMeta t6 "property" "og:image:alt" "__OG_IMAGE_ALT__"
  let t8 := applyMeta t7 "name" "twitter:title" "__TWITTER_TITLE__"
  let t9 := applyMeta t8 "name" "twitter:description" "__TWITTER_DESC__"
  let t10 := applyMeta t9 "name" "twitter:image:alt" "__TWITTER_IMAGE_ALT__"
  let t11 := (jsonLdApplyNode translations 0 t10).1
  let t12 := (attrApplyNode translations (fun n => isTag "img" n && hasAttr "alt" n) "alt" "__IMG_ALT_" 0 t11).1
  let t13 := (attrApplyNode translations (hasAttr "title") "title" "__TITLE_ATTR_" 0 t12).1
  let t14 := (attrApplyNode translations (hasAttr "placeholder") "placeholder" "__PLACEHOLDER_" 0 t13).1
  let t15 := blockApplyNode parseFrag translations t14
  let t16 :=
    if decide (cfg.seo.injectHreflang ≠ some false) then injectHreflangTags cfg targetLanguage t15
    else t15
  let t17 := setAttrAllNode (isTag "html") "lang" targetLanguage t16
  restorePlaceholders vault (serializeNode t17)

/-! ## Translation client (translator.ts)

The external OpenAI call is abstracted by what `translateBatch` observes of
its `attempts`-th request: either the request throws (classified as
rate-limited when `status` is 429, other otherwise), or a response arrives
whose content either parses into a well-shaped `translations` array or
fails parsing/validation (`badShape`, which still records token usage,
since usage is tracked before parsing). -/

/-- Outcome of one attempt of the external translation request, as observed
by `translateBatch`. -/
inductive ApiOutcome where
  | success (translations : List String) (tokens : Nat)
  | badShape (tokens : Nat)
  | rateLimited
  | otherError

/-- The observable result of one `translateBatch` call: the returned record
or thrown error, the number of requests issued, the tokens accumulated into
`tokensUsed`, and the number of count-mismatch diagnostics
(`console.warn` calls of the validation block, translator.ts lines 100-109). -/
structure TBOut where
  result : Except String (List (String × String))
  attempts : Nat
  tokens : Nat
  mismatchWarns : Nat

/-- Error thrown after a rate-limited attempt once the budget is exhausted
(translator.ts line 136). -/
def rateLimitFailMsg : String := "Failed to translate: rate limited"

/-- Error thrown when the response fails to parse or validate
(translator.ts lines 112 and 136). -/
def malformedFailMsg : String := "Failed to translate: Invalid JSON response"

/-- Error thrown for a non-rate-limit request failure (translator.ts line 136). -/
def otherFailMsg : String := "Failed to translate: request error"

/-- The unreachable post-loop error (translator.ts line 141). -/
def exhaustedMsg : String := "Failed to translate after maximum retries"

/-- Padding of a short `translations` array (translator.ts lines 100-109):
missing entries are appended from the corresponding original texts; a long
array is kept as is. -/
def padTranslations (texts tr : List String) : List String :=
  tr ++ texts.drop tr.length

/-- Number of validation diagnostics: one for the count mismatch plus one
per backfilled entry. -/
def mismatchWarnCount (texts tr : List String) : Nat :=
  if tr.length = texts.length then 0 else 1 + (texts.length - tr.length)

/-- The result record of a successful attempt (translator.ts lines 116-119):
`result[text] = translations[index] || text`, assignments in input order on
a plain object. -/
def buildResult (texts padded : List String) : List (String × String) :=
  (texts.enum).foldl
    (fun acc it => jsObjSet acc it.2 (if padded.getD it.1 "" = "" then it.2 else padded.getD it.1 ""))
    []

/-- The retry loop of `translateBatch` (translator.ts lines 62-141),
`maxRetries = 3`: `fuel` counts the remaining loop iterations (the loop
runs while `retries < 3` and every iteration increments `retries`), and
`attempts` counts the requests already made.  A well-shaped response
returns; a malformed response is thrown and, not being rate-limited, is
rethrown without another attempt; a rate-limited request backs off and
retries while budget remains; any other request failure is rethrown at
once. -/
def translateBatchLoop (texts : List String) (outcomes : Nat → ApiOutcome) : Nat → Nat → Nat → TBOut
  | 0, attempts, tokens => ⟨.error exhaustedMsg, attempts, tokens, 0⟩
  | fuel + 1, attempts, tokens =>
    match outcomes attempts with
    | .success tr tk =>
      ⟨.ok (buildResult texts (padTranslations texts tr)), attempts + 1, tokens + tk,
        mismatchWarnCount texts tr⟩
    | .badShape tk => ⟨.error malformedFailMsg, attempts + 1, tokens + tk, 0⟩
    | .rateLimited =>
      if 0 < fuel then translateBatchLoop texts outcomes fuel (attempts + 1) tokens
      else ⟨.error rateLimitFailMsg, attempts + 1, tokens, 0⟩
    | .otherError => ⟨.error otherFailMsg, attempts + 1, tokens, 0⟩

/-- `translateBatch` (translator.ts lines 21-142): the empty input returns
the empty record before any prompt is built or any request is made;
otherwise the retry loop runs with a budget of three attempts. -/
def translateBatch (texts : List String) (outcomes : Nat → ApiOutcome) : TBOut :=
  if texts.isEmpty then ⟨.ok [], 0, 0, 0⟩
  else translateBatchLoop texts outcomes 3 0 0

/-- The per-key resolution value of `translateTexts`
(translator.ts line 172): `translatedTexts[originalText] || originalText`. -/
def resolveVal (translated : List (String × String)) (originalText : String) : String :=
  match jsObjGet translated originalText with
  | some v => if v = "" then originalText else v
  | none => originalText

/-- The final resolution loop of `translateTexts` (translator.ts lines
169-173): one entry per mapping entry, in mapping order, each key resolved
through the merged batch results with fallback to its original text. -/
def resolveTranslations (mapping translated : List (String × String)) : List (String × String) :=
  mapping.map (fun kv => (kv.1, resolveVal translated kv.2))

/-- `Array.from(new Set(texts))`: first occurrences in order. -/
def uniqueTexts (texts : List String) : List String :=
  dedupFirst texts

/-- Consecutive slices of size `k` (the batching loop of `translateTexts`,
translator.ts lines 153-154, `batchSize = 20`), with fuel. -/
def chunksAux (k : Nat) : Nat → List String → List (List String)
  | 0, _ => []
  | _ + 1, [] => []
  | fuel + 1, l => l.take k :: chunksAux k fuel (l.drop k)

/-- `translateTexts` (translator.ts lines 144-176): deduplicate, translate
in sequential batches of 20 (batch `i` drawing its attempt outcomes from
`outcomes i`), merge the batch records with `Object.assign`, and resolve
every mapping key; a failed batch propagates as the thrown error. -/
def translateTexts (texts : List String) (mapping : List (String × String))
    (outcomes : Nat → Nat → ApiOutcome) : Except String (List (String × String)) :=
  let uniq := uniqueTexts texts
  let batches := chunksAux 20 uniq.length uniq
  let merged :=
    batches.enum.foldl
      (fun (acc : Except String (List (String × String))) ib =>
        match acc with
        | .error e => .error e
        | .ok translated =>
          match (translateBatch ib.2 (outcomes ib.1)).result with
          | .ok br => .ok (br.foldl (fun t kv => jsObjSet t kv.1 kv.2) translated)
          | .error e => .error e)
      (.ok [])
  match merged with
  | .ok translated => .ok (resolveTranslations mapping translated)
  | .error e => .error e

/-! ## Concrete documents and configurations used by the theorems -/

/-- The default configuration: every optional field absent, as when the
`safety` and `seo` sections are omitted from the user configuration. -/
def cfgDefault : TranslatorConfig := {}

/-- The default configuration with one target language. -/
def cfgEs : TranslatorConfig := { targetLanguages := ["es"] }

/-- A configuration that disables script preservation. -/
def cfgNoScripts : TranslatorConfig := { safety := { preserveScripts := some false } }

/-- A document whose script body contains the JavaScript replacement
metacharacters `$&`. -/
def docScriptDollar : Node :=
  .elem "html" [] [.elem "head" [] [],
    .elem "body" [] [.elem "script" [] [.text "var a=\"$&\";"]]]

/-- The spec's block-extraction example `<div><p>A</p><p>B</p></div>`. -/
def docDivPP : Node :=
  .elem "html" [] [.elem "head" [] [],
    .elem "body" [] [.elem "div" [] [.elem "p" [] [.text "A"], .elem "p" [] [.text "B"]]]]

/-- A document with one JSON-LD script whose content is valid JSON. -/
def docJsonLd : Node :=
  .elem "html" [] [.elem "head" [] [],
    .elem "body" [] [.elem "script" [("type", "application/ld+json")] [.text "true"]]]

/-- A document with one JSON-LD script whose content carries trailing
whitespace, so that `JSON.stringify(JSON.parse(content))` differs from
`content`. -/
def docJsonLdWs : Node :=
  .elem "html" [] [.elem "head" [] [],
    .elem "body" [] [.elem "script" [("type", "application/ld+json")] [.text "true "]]]

/-- A document whose title is a single space. -/
def docWsTitle : Node :=
  .elem "html" [] [.elem "head" [] [.elem "title" [] [.text " "]], .elem "body" [] []]

/-- An outcome stream whose first attempt returns a malformed response and
whose later attempts would succeed. -/
def malformedThenOk : Nat → ApiOutcome
  | 0 => .badShape 5
  | _ + 1 => .success ["x"] 2

/-- An outcome stream that always returns a well-shaped but short
translations array. -/
def shortRespOutcomes : Nat → ApiOutcome :=
  fun _ => .success ["x"] 7

/-! ## Claim theorems -/

set_option maxRecDepth 100000

/-- C1 (code bug): round-trip fidelity of protected markup fails.  For the
document whose script body is `var a="$&";`, the vault captures the script
verbatim, but restoring the placeholder into the skeleton passes the
captured markup through JavaScript `String.prototype.replace`, whose `$&`
expansion re-inserts the matched placeholder token: the restored output is
not the original document, does not contain the protected markup at all,
and still contains the placeholder token. -/
theorem C1_restore_dollar_corruption :
    (extractTranslatableContent cfgDefault docScriptDollar).vault
      = [("__SKIP_PLACEHOLDER_0__", "<script>var a=\"$&\";</script>")]
    ∧ (extractTranslatableContent cfgDefault docScriptDollar).processedHtml
      = "<html><head></head><body>__SKIP_PLACEHOLDER_0__</body></html>"
    ∧ restorePlaceholders (extractTranslatableContent cfgDefault docScriptDollar).vault
        (extractTranslatableContent cfgDefault docScriptDollar).processedHtml
      = "<html><head></head><body><script>var a=\"__SKIP_PLACEHOLDER_0__\";</script></body></html>"
    ∧ restorePlaceholders (extractTranslatableContent cfgDefault docScriptDollar).vault
        (extractTranslatableContent cfgDefault docScriptDollar).processedHtml
      ≠ serializeNode docScriptDollar
    ∧ strContains
        (restorePlaceholders (extractTranslatableContent cfgDefault docScriptDollar).vault
          (extractTranslatableContent cfgDefault docScriptDollar).processedHtml)
        "<script>var a=\"$&\";</script>" = false := by
  refine ⟨rfl, rfl, rfl, ?_, rfl⟩
  decide

/-- C2 (code bug): the no-leak invariant fails.  Running the full pipeline
(extraction with the default safety configuration, reinjection with an empty
translation result and target language `es`) on the `$&` document produces a
final output that still contains a placeholder-token substring. -/
theorem C2_output_contains_placeholder_token :
    applyTranslations (fun s => [Node.text s]) cfgEs
        (extractTranslatableContent cfgEs docScriptDollar).vault
        (extractTranslatableContent cfgEs docScriptDollar).processedTree [] "es"
      = "<html lang=\"es\"><head><link rel=\"alternate\" hreflang=\"x-default\" href=\"/es/\">\n<link rel=\"alternate\" hreflang=\"en\" href=\"/en/\">\n</head><body><script>var a=\"__SKIP_PLACEHOLDER_0__\";</script></body></html>"
    ∧ strContains
        (applyTranslations (fun s => [Node.text s]) cfgEs
          (extractTranslatableContent cfgEs docScriptDollar).vault
          (extractTranslatableContent cfgEs docScriptDollar).processedTree [] "es")
        "__SKIP_PLACEHOLDER_0__" = true := by
  constructor
  · decide
  · decide

/-- C4 (code bug): with script preservation enabled (the default), a
JSON-LD script is captured into the placeholder vault by the protect pass
before the JSON-LD extraction step runs, so no translatable unit is
produced for it; the dedicated JSON-LD extraction only fires when script
preservation is explicitly disabled. -/
theorem C4_jsonld_protected_not_extracted :
    (extractTranslatableContent cfgDefault docJsonLd).units = []
    ∧ (extractTranslatableContent cfgDefault docJsonLd).vault
      = [("__SKIP_PLACEHOLDER_0__", "<script type=\"application/ld+json\">true</script>")]
    ∧ (extractTranslatableContent cfgNoScripts docJsonLd).units
      = [⟨"__JSON_LD_0__", "true", "true"⟩] := by
  exact ⟨rfl, rfl, rfl⟩

/-- C5 (counterexample): units and mapping are not aligned for JSON-LD
units.  For a JSON-LD script with content `"true "`, the pushed translatable
text is the re-serialization `"true"` while the mapping stores the raw
content `"true "`, so `units[0].text ≠ mapping.get(units[0].key)`. -/
theorem C5_jsonld_mapping_mismatch :
    (extractTranslatableContent cfgNoScripts docJsonLdWs).units
      = [⟨"__JSON_LD_0__", "true", "true "⟩]
    ∧ unitTexts (extractTranslatableContent cfgNoScripts docJsonLdWs).units = ["true"]
    ∧ jsMapGet (unitMapping (extractTranslatableContent cfgNoScripts docJsonLdWs).units)
        "__JSON_LD_0__" = some "true "
    ∧ ("true" : String) ≠ "true " := by
  refine ⟨rfl, rfl, rfl, ?_⟩
  decide

/-- C7 (counterexample): a malformed response is not retried.  With an
outcome stream whose first attempt is malformed and whose second attempt
would succeed, `translateBatch` throws after a single attempt even though
two more attempts of the budget remain. -/
theorem C7_malformed_not_retried :
    (translateBatch ["a"] malformedThenOk).result = .error malformedFailMsg
    ∧ (translateBatch ["a"] malformedThenOk).attempts = 1
    ∧ malformedThenOk 1 = .success ["x"] 2 := by
  exact ⟨rfl, rfl, rfl⟩

/-- C9 (counterexample): a whitespace-only title is not excluded.  The
document `<title> </title>` produces the unit `__TITLE__` whose text is a
single space, which trims to the empty string. -/
theorem C9_whitespace_title_included :
    (extractTranslatableContent cfgDefault docWsTitle).units = [⟨"__TITLE__", " ", " "⟩]
    ∧ jsTrim " " = "" := by
  exact ⟨rfl, rfl⟩

/-- C10: the empty batch short-circuits.  `translateBatch` on an empty text
list returns the empty record having issued no request, consumed no retry
attempt, and recorded no token usage, whatever the external capability
would have answered. -/
theorem C10_empty_batch_short_circuit (outcomes : Nat → ApiOutcome) :
    translateBatch [] outcomes = ⟨.ok [], 0, 0, 0⟩ := rfl

/-! ## Helper lemmas -/

theorem strAppend_data (a b : String) : (a ++ b).data = a.data ++ b.data := by
  cases a
  cases b
  rfl

theorem stringMk_ne_empty (l : List Char) (h : l ≠ []) : (⟨l⟩ : String) ≠ "" := by
  intro he
  apply h
  have h2 : (⟨l⟩ : String).data = ("" : String).data := by rw [he]
  simp at h2
  exact h2

theorem natReprAux_ne_nil (fuel n : Nat) (hf : fuel ≠ 0) (hn : n ≠ 0) :
    natReprAux fuel n ≠ [] := by
  cases fuel with
  | zero => exact absurd rfl hf
  | succ m =>
    simp only [natReprAux, if_neg hn]
    simp

theorem natRepr_ne_empty (n : Nat) : natRepr n ≠ "" := by
  unfold natRepr
  split
  · decide
  · next h => exact stringMk_ne_empty _ (natReprAux_ne_nil n n h h)

theorem jsonStringify_ne_empty (j : JVal) : jsonStringify j ≠ "" := by
  cases j with
  | jnull => decide
  | jbool b => cases b <;> decide
  | jint n =>
    cases n with
    | ofNat m => exact natRepr_ne_empty m
    | negSucc m =>
      show ("-" ++ natRepr (m + 1)) ≠ ""
      intro he
      have h2 : ("-" ++ natRepr (m + 1)).data = ("" : String).data := by rw [he]
      rw [strAppend_data] at h2
      simp at h2

theorem jsObjGet_mem (l : List (String × String)) (q v : String)
    (h : jsObjGet l q = some v) : (q, v) ∈ l := by
  induction l with
  | nil => simp [jsObjGet] at h
  | cons kv rest ih =>
    rw [jsObjGet] at h
    split at h
    · next heq =>
      obtain ⟨a, b⟩ := kv
      simp only at heq
      cases h
      subst heq
      exact List.mem_cons_self _ _
    · exact List.mem_cons_of_mem _ (ih h)

theorem jsObjGet_set_self (l : List (String × String)) (k v : String) :
    jsObjGet (jsObjSet l k v) k = some v := by
  induction l with
  | nil => simp [jsObjGet, jsObjSet]
  | cons kv rest ih =>
    obtain ⟨a, b⟩ := kv
    rw [jsObjSet]
    split
    · next heq => simp [jsObjGet]
    · next heq =>
      rw [jsObjGet, if_neg heq]
      exact ih

theorem jsObjGet_set_ne (l : List (String × String)) (k v q : String) (h : k ≠ q) :
    jsObjGet (jsObjSet l k v) q = jsObjGet l q := by
  induction l with
  | nil => simp [jsObjGet, jsObjSet, if_neg h]
  | cons kv rest ih =>
    obtain ⟨a, b⟩ := kv
    rw [jsObjSet]
    split
    · next heq =>
      subst heq
      rw [jsObjGet, jsObjGet, if_neg h, if_neg h]
    · next heq =>
      rw [jsObjGet, jsObjGet]
      by_cases h3 : a = q
      · rw [if_pos h3, if_pos h3]
      · rw [if_neg h3, if_neg h3]
        exact ih

theorem jsObjGet_set_isSome (l : List (String × String)) (k v q : String)
    (h : (jsObjGet l q).isSome) : (jsObjGet (jsObjSet l k v) q).isSome := by
  by_cases h2 : k = q
  · subst h2
    rw [jsObjGet_set_self]
    rfl
  · rw [jsObjGet_set_ne l k v q h2]
    exact h

theorem objValsOk_set (l : List (String × String)) (k v : String)
    (hl : objValsOk l) (hv : k ≠ "" → v ≠ "") : objValsOk (jsObjSet l k v) := by
  induction l with
  | nil =>
    intro kv hkv
    simp [jsObjSet] at hkv
    subst hkv
    exact hv
  | cons kv0 rest ih =>
    obtain ⟨a, b⟩ := kv0
    intro kv hkv
    rw [jsObjSet] at hkv
    split at hkv
    · next heq =>
      rcases List.mem_cons.mp hkv with h1 | h1
      · subst h1
        exact hv
      · exact hl kv (List.mem_cons_of_mem _ h1)
    · next heq =>
      rcases List.mem_cons.mp hkv with h1 | h1
      · subst h1
        exact hl _ (List.mem_cons_self _ _)
      · exact ih (fun kv2 hkv2 => hl kv2 (List.mem_cons_of_mem _ hkv2)) kv h1

theorem foldl_objSet_valsOk (f : Nat × String → String)
    (hf : ∀ it, it.2 ≠ "" → f it ≠ "") (xs : List (Nat × String)) :
    ∀ acc, objValsOk acc →
      objValsOk (xs.foldl (fun a it => jsObjSet a it.2 (f it)) acc) := by
  induction xs with
  | nil => intro acc hacc; exact hacc
  | cons x xs ih =>
    intro acc hacc
    exact ih _ (objValsOk_set acc x.2 (f x) hacc (hf x))

theorem foldl_objSet_covers (f : Nat × String → String) (t : String) (xs : List (Nat × String)) :
    ∀ acc, (t ∈ xs.map Prod.snd ∨ (jsObjGet acc t).isSome) →
      (jsObjGet (xs.foldl (fun a it => jsObjSet a it.2 (f it)) acc) t).isSome := by
  induction xs with
  | nil =>
    intro acc h
    rcases h with h | h
    · simp at h
    · exact h
  | cons x xs ih =>
    intro acc h
    rcases h with h | h
    · rw [List.map_cons] at h
      rcases List.mem_cons.mp h with h1 | h1
      · apply ih
        right
        rw [h1, jsObjGet_set_self]
        rfl
      · apply ih
        left
        exact h1
    · apply ih
      right
      exact jsObjGet_set_isSome _ _ _ _ h

theorem buildResult_covers (texts padded : List String) :
    ∀ t ∈ texts, ∃ v, jsObjGet (buildResult texts padded) t = some v ∧ (t ≠ "" → v ≠ "") := by
  intro t ht
  have hsome : (jsObjGet (buildResult texts padded) t).isSome := by
    apply foldl_objSet_covers
    left
    rw [List.enum_map_snd]
    exact ht
  obtain ⟨v, hv⟩ := Option.isSome_iff_exists.mp hsome
  refine ⟨v, hv, fun htne => ?_⟩
  have hok : objValsOk (buildResult texts padded) := by
    apply foldl_objSet_valsOk
    · intro it hne
      dsimp only
      split
      · exact hne
      · next hpad => exact hpad
    · intro kv hkv
      exact absurd hkv (List.not_mem_nil kv)
  exact hok (t, v) (jsObjGet_mem _ _ _ hv) htne

theorem padTranslations_backfill (texts tr : List String) :
    ∀ i, tr.length ≤ i → i < texts.length →
      (padTranslations texts tr).getD i "" = texts.getD i "" := by
  intro i h1 h2
  unfold padTranslations
  rw [List.getD_eq_getElem?_getD, List.getD_eq_getElem?_getD]
  rw [List.getElem?_append_right h1, List.getElem?_drop]
  congr 2
  omega

theorem jsTrim_ne_empty_iff (s : String) :
    jsTrim s ≠ "" ↔ ∃ c ∈ s.data, jsWsChar c = false := by
  have hdata : (jsTrim s).data
      = ((s.data.dropWhile jsWsChar).reverse.dropWhile jsWsChar).reverse := rfl
  constructor
  · intro h
    by_contra hc
    push_neg at hc
    have hall : ∀ c ∈ s.data, jsWsChar c = true := by
      intro c hcm
      have h2 := hc c hcm
      simpa [Bool.not_eq_false] using h2
    apply h
    have h1 : s.data.dropWhile jsWsChar = [] := List.dropWhile_eq_nil_iff.mpr hall
    show (⟨((s.data.dropWhile jsWsChar).reverse.dropWhile jsWsChar).reverse⟩ : String) = ""
    rw [h1]
    rfl
  · rintro ⟨c, hcm, hcw⟩ he
    have h0 : ((s.data.dropWhile jsWsChar).reverse.dropWhile jsWsChar).reverse = [] := by
      have h2 := congrArg String.data he
      rw [hdata] at h2
      simpa using h2
    rw [List.reverse_eq_nil_iff] at h0
    have h1 : ∀ x ∈ (s.data.dropWhile jsWsChar).reverse, jsWsChar x = true :=
      List.dropWhile_eq_nil_iff.mp h0
    have h2 : ∀ x ∈ s.data.dropWhile jsWsChar, jsWsChar x = true := by
      intro x hx
      exact h1 x (List.mem_reverse.mpr hx)
    have h3 : ∀ x ∈ s.data, jsWsChar x = true := by
      intro x hx
      rw [← List.takeWhile_append_dropWhile (p := jsWsChar) (l := s.data)] at hx
      rcases List.mem_append.mp hx with h4 | h4
      · exact List.mem_takeWhile_imp h4
      · exact h2 x h4
    rw [h3 c hcm] at hcw
    cases hcw

theorem strMemAppendLeft (a b : String) (c : Char) (h : c ∈ a.data) : c ∈ (a ++ b).data := by
  rw [strAppend_data]
  exact List.mem_append_left _ h

theorem strMemAppendRight (a b : String) (c : Char) (h : c ∈ b.data) : c ∈ (a ++ b).data := by
  rw [strAppend_data]
  exact List.mem_append_right _ h

theorem serializeNode_elem_has_lt (t : String) (a : List (String × String)) (c : List Node) :
    '<' ∈ (serializeNode (Node.elem t a c)).data := by
  rw [serializeNode]
  split
  · repeat apply strMemAppendLeft
    decide
  · repeat apply strMemAppendLeft
    decide

theorem serializeList_nonws (l : List Node)
    (h : ∃ c ∈ (textContentList l).data, jsWsChar c = false) :
    ∃ c ∈ (serializeList l).data, jsWsChar c = false := by
  induction l with
  | nil =>
    obtain ⟨c, hcm, _⟩ := h
    simp [textContentList] at hcm
  | cons n rest ih =>
    obtain ⟨c, hcm, hcw⟩ := h
    rw [textContentList] at hcm
    cases n with
    | text s =>
      rw [textContent, strAppend_data] at hcm
      rw [serializeList]
      rcases List.mem_append.mp hcm with h1 | h1
      · exact ⟨c, strMemAppendLeft _ _ _ h1, hcw⟩
      · obtain ⟨c2, hc2m, hc2w⟩ := ih ⟨c, h1, hcw⟩
        exact ⟨c2, strMemAppendRight _ _ _ hc2m, hc2w⟩
    | comment s =>
      rw [serializeList]
      refine ⟨'<', ?_, by decide⟩
      show '<' ∈ ((("<!--" ++ s) ++ "-->") ++ serializeList rest).data
      repeat apply strMemAppendLeft
      decide
    | elem t a cs =>
      rw [serializeList]
      exact ⟨'<', strMemAppendLeft _ _ _ (serializeNode_elem_has_lt t a cs), by decide⟩

theorem jsWsChar_digitChar (m : Nat) : jsWsChar (digitChar m) = false := by
  have hlt : m % 10 < 10 := Nat.mod_lt _ (by norm_num)
  unfold digitChar
  generalize m % 10 = k at hlt ⊢
  interval_cases k <;> decide

theorem natRepr_nonws (n : Nat) : ∃ c ∈ (natRepr n).data, jsWsChar c = false := by
  unfold natRepr
  split
  · exact ⟨'0', by decide, by decide⟩
  · next h =>
    cases n with
    | zero => exact absurd rfl h
    | succ m =>
      show ∃ c ∈ natReprAux (m + 1) (m + 1), jsWsChar c = false
      rw [natReprAux, if_neg (by omega)]
      exact ⟨digitChar ((m + 1) % 10),
        List.mem_append_right _ (List.mem_singleton.mpr rfl), jsWsChar_digitChar _⟩

theorem jsonStringify_nonws (j : JVal) :
    ∃ c ∈ (jsonStringify j).data, jsWsChar c = false := by
  cases j with
  | jnull => exact ⟨'n', by decide, by decide⟩
  | jbool b =>
    cases b with
    | false => exact ⟨'f', by decide, by decide⟩
    | true => exact ⟨'t', by decide, by decide⟩
  | jint n =>
    cases n with
    | ofNat m => exact natRepr_nonws m
    | negSucc m =>
      show ∃ c ∈ (("-" : String) ++ natRepr (m + 1)).data, jsWsChar c = false
      exact ⟨'-', strMemAppendLeft _ _ _ (by decide), by decide⟩

theorem jsTrim_jsonStringify_ne_empty (j : JVal) : jsTrim (jsonStringify j) ≠ "" :=
  (jsTrim_ne_empty_iff _).mpr (jsonStringify_nonws j)


theorem titleUnits_mem (doc : Node) :
    ∀ u ∈ titleUnits doc, u.key = "__TITLE__" ∧ u.mapped = u.text ∧ u.text ≠ "" := by
  intro u hu
  simp only [titleUnits] at hu
  split at hu
  · exact absurd hu (List.not_mem_nil u)
  · next h =>
    rw [List.mem_singleton] at hu
    subst hu
    exact ⟨rfl, rfl, h⟩

theorem metaUnits_mem (doc : Node) (attrName attrVal key : String) :
    ∀ u ∈ metaUnits doc attrName attrVal key,
      u.key = key ∧ u.mapped = u.text ∧ u.text ≠ "" := by
  intro u hu
  unfold metaUnits at hu
  split at hu
  · split at hu
    · split at hu
      · exact absurd hu (List.not_mem_nil u)
      · next h =>
        rw [List.mem_singleton] at hu
        subst hu
        exact ⟨rfl, rfl, h⟩
    · exact absurd hu (List.not_mem_nil u)
  · exact absurd hu (List.not_mem_nil u)

theorem attrUnits_mem (doc : Node) (selTag : Option String) (attrName keyStem : String) :
    ∀ u ∈ attrUnits doc selTag attrName keyStem,
      u.mapped = u.text ∧ u.text ≠ "" ∧ jsTrim u.text ≠ "" := by
  intro u hu
  unfold attrUnits at hu
  rw [List.mem_filterMap] at hu
  obtain ⟨ie, _, hf⟩ := hu
  split at hf
  · split at hf
    · next hcond =>
      cases hf
      rw [Bool.and_eq_true] at hcond
      exact ⟨rfl, of_decide_eq_true hcond.1, of_decide_eq_true hcond.2⟩
    · cases hf
  · cases hf

theorem jsonLdUnits_mem (doc : Node) :
    ∀ u ∈ jsonLdUnits doc,
      ∃ i j content, u = ⟨"__JSON_LD_" ++ natRepr i ++ "__", jsonStringify j, content⟩
        ∧ jsonParse content = some j := by
  intro u hu
  unfold jsonLdUnits at hu
  rw [List.mem_filterMap] at hu
  obtain ⟨ie, _, hf⟩ := hu
  dsimp only at hf
  split at hf
  · cases hf
  · split at hf
    · next j hj =>
      cases hf
      exact ⟨ie.1, j, innerHtml ie.2, rfl, hj⟩
    · cases hf

theorem preBlockUnits_mem (doc : Node) :
    ∀ u ∈ preBlockUnits doc,
      (u.key ∈ metadataKeys ∧ u.mapped = u.text ∧ u.text ≠ "") ∨
      (u.mapped = u.text ∧ u.text ≠ "" ∧ jsTrim u.text ≠ "") ∨
      ∃ i j content, u = ⟨"__JSON_LD_" ++ natRepr i ++ "__", jsonStringify j, content⟩
        ∧ jsonParse content = some j := by
  intro u hu
  unfold preBlockUnits at hu
  simp only [List.append_assoc, List.mem_append] at hu
  rcases hu with h | h | h | h | h | h | h | h | h | h | h | h | h | h
  · obtain ⟨hk, hm, hn⟩ := titleUnits_mem doc u h
    exact Or.inl ⟨by rw [hk]; decide, hm, hn⟩
  · obtain ⟨hk, hm, hn⟩ := metaUnits_mem doc _ _ _ u h
    exact Or.inl ⟨by rw [hk]; decide, hm, hn⟩
  · obtain ⟨hk, hm, hn⟩ := metaUnits_mem doc _ _ _ u h
    exact Or.inl ⟨by rw [hk]; decide, hm, hn⟩
  · obtain ⟨hk, hm, hn⟩ := metaUnits_mem doc _ _ _ u h
    exact Or.inl ⟨by rw [hk]; decide, hm, hn⟩
  · obtain ⟨hk, hm, hn⟩ := metaUnits_mem doc _ _ _ u h
    exact Or.inl ⟨by rw [hk]; decide, hm, hn⟩
  · obtain ⟨hk, hm, hn⟩ := metaUnits_mem doc _ _ _ u h
    exact Or.inl ⟨by rw [hk]; decide, hm, hn⟩
  · obtain ⟨hk, hm, hn⟩ := metaUnits_mem doc _ _ _ u h
    exact Or.inl ⟨by rw [hk]; decide, hm, hn⟩
  · obtain ⟨hk, hm, hn⟩ := metaUnits_mem doc _ _ _ u h
    exact Or.inl ⟨by rw [hk]; decide, hm, hn⟩
  · obtain ⟨hk, hm, hn⟩ := metaUnits_mem doc _ _ _ u h
    exact Or.inl ⟨by rw [hk]; decide, hm, hn⟩
  · obtain ⟨hk, hm, hn⟩ := metaUnits_mem doc _ _ _ u h
    exact Or.inl ⟨by rw [hk]; decide, hm, hn⟩
  · exact Or.inr (Or.inr (jsonLdUnits_mem doc u h))
  · exact Or.inr (Or.inl (attrUnits_mem doc _ _ _ u h))
  · exact Or.inr (Or.inl (attrUnits_mem doc _ _ _ u h))
  · exact Or.inr (Or.inl (attrUnits_mem doc _ _ _ u h))

mutual

theorem blockPassNode_inv (inBody : Bool) (acc : BlockAcc) (n : Node) :
    (∀ u ∈ (blockPassNode inBody acc n).2.units,
        u ∈ acc.units ∨ (u.mapped = u.text ∧ u.text ≠ "" ∧ jsTrim u.text ≠ "")) ∧
    (∀ e ∈ (blockPassNode inBody acc n).2.chosen,
        e ∈ acc.chosen ∨ ∃ t a c, e = Node.elem t a c ∧ listHasBlock c = false) := by
  cases n with
  | text s => exact ⟨fun u hu => Or.inl hu, fun e he => Or.inl he⟩
  | comment s => exact ⟨fun u hu => Or.inl hu, fun e he => Or.inl he⟩
  | elem t a c =>
    rw [blockPassNode]
    split
    · next hcond =>
      have hrec := blockPassList_inv (inBody || t = "body")
        ⟨acc.units ++ [⟨"__BLOCK_" ++ natRepr acc.units.length ++ "__",
          serializeList c, serializeList c⟩], acc.chosen ++ [Node.elem t a c]⟩ c
      rw [Bool.and_eq_true] at hcond
      rw [Bool.and_eq_true] at hcond
      rw [Bool.and_eq_true] at hcond
      rw [Bool.and_eq_true] at hcond
      rw [Bool.and_eq_true] at hcond
      rw [Bool.and_eq_true] at hcond
      rw [Bool.and_eq_true] at hcond
      constructor
      · intro u hu
        rcases hrec.1 u hu with h1 | h1
        · rcases List.mem_append.mp h1 with h2 | h2
          · exact Or.inl h2
          · rw [List.mem_singleton] at h2
            subst h2
            refine Or.inr ⟨rfl, of_decide_eq_true hcond.1.1.1.2, ?_⟩
            have htxt : jsTrim (textContentList c) ≠ "" := of_decide_eq_true hcond.1.1.2
            exact (jsTrim_ne_empty_iff _).mpr
              (serializeList_nonws c ((jsTrim_ne_empty_iff _).mp htxt))
        · exact Or.inr h1
      · intro e he
        rcases hrec.2 e he with h1 | h1
        · rcases List.mem_append.mp h1 with h2 | h2
          · exact Or.inl h2
          · rw [List.mem_singleton] at h2
            subst h2
            refine Or.inr ⟨t, a, c, rfl, ?_⟩
            have hb := hcond.1.1.1.1.2
            rw [Bool.not_eq_true'] at hb
            exact hb
        · exact Or.inr h1
    · exact blockPassList_inv (inBody || t = "body") acc c

theorem blockPassList_inv (inBody : Bool) (acc : BlockAcc) (l : List Node) :
    (∀ u ∈ (blockPassList inBody acc l).2.units,
        u ∈ acc.units ∨ (u.mapped = u.text ∧ u.text ≠ "" ∧ jsTrim u.text ≠ "")) ∧
    (∀ e ∈ (blockPassList inBody acc l).2.chosen,
        e ∈ acc.chosen ∨ ∃ t a c, e = Node.elem t a c ∧ listHasBlock c = false) := by
  cases l with
  | nil => exact ⟨fun u hu => Or.inl hu, fun e he => Or.inl he⟩
  | cons n rest =>
    rw [blockPassList]
    have h1 := blockPassNode_inv inBody acc n
    have h2 := blockPassList_inv inBody (blockPassNode inBody acc n).2 rest
    constructor
    · intro u hu
      rcases h2.1 u hu with hm | hm
      · exact h1.1 u hm
      · exact Or.inr hm
    · intro e he
      rcases h2.2 e he with hm | hm
      · exact h1.2 e hm
      · exact Or.inr hm

end

theorem extract_units_mem (cfg : TranslatorConfig) (doc : Node) :
    ∀ u ∈ (extractTranslatableContent cfg doc).units,
      (u.key ∈ metadataKeys ∧ u.mapped = u.text ∧ u.text ≠ "") ∨
      (u.mapped = u.text ∧ u.text ≠ "" ∧ jsTrim u.text ≠ "") ∨
      ∃ i j content, u = ⟨"__JSON_LD_" ++ natRepr i ++ "__", jsonStringify j, content⟩
        ∧ jsonParse content = some j := by
  intro u hu
  have hdef : (extractTranslatableContent cfg doc).units
      = (blockPassNode false ⟨preBlockUnits (protectPasses cfg doc).1, []⟩
          (protectPasses cfg doc).1).2.units := rfl
  rw [hdef] at hu
  rcases (blockPassNode_inv false ⟨preBlockUnits (protectPasses cfg doc).1, []⟩
      (protectPasses cfg doc).1).1 u hu with h | h
  · exact preBlockUnits_mem _ u h
  · exact Or.inr (Or.inl h)

/-- C9 (amended): every extracted unit has a nonempty text value, and every
unit whose key is not one of the ten fixed singleton-metadata keys — that
is, every attribute, block, and JSON-LD unit — additionally has a nonempty
trimmed text value.  Attribute units are guarded by an explicit trim check;
block units are guarded by a trim check on their text content, every
non-whitespace character of which forces a non-whitespace character in the
pushed inner HTML; JSON-LD units push a re-serialization, which contains no
surrounding whitespace.  Singleton metadata (title and meta content) is
guarded only by truthiness, so those units can be whitespace-only, as the
counterexample shows. -/
theorem C9_units_nonempty (cfg : TranslatorConfig) (doc : Node) :
    ∀ u ∈ (extractTranslatableContent cfg doc).units,
      u.text ≠ "" ∧ (u.key ∉ metadataKeys → jsTrim u.text ≠ "") := by
  intro u hu
  rcases extract_units_mem cfg doc u hu with
    ⟨hk, _, hne⟩ | ⟨_, hne, htr⟩ | ⟨i, j, content, heq, _⟩
  · exact ⟨hne, fun hnk => absurd hk hnk⟩
  · exact ⟨hne, fun _ => htr⟩
  · rw [heq]
    exact ⟨jsonStringify_ne_empty j, fun _ => jsTrim_jsonStringify_ne_empty j⟩

/-- Witness for C9: the amended theorem applied to the whitespace-title
document (nonemptiness of its whitespace-only `__TITLE__` unit) and to a
block unit of the two-paragraph document (nonempty trimmed value of a
non-metadata unit). -/
theorem C9_units_nonempty_witness :
    ExUnit.text ⟨"__TITLE__", " ", " "⟩ ≠ ""
    ∧ jsTrim (ExUnit.text ⟨"__BLOCK_0__", "A", "A"⟩) ≠ "" :=
  ⟨(C9_units_nonempty cfgDefault docWsTitle ⟨"__TITLE__", " ", " "⟩ (by decide)).1,
   (C9_units_nonempty cfgDefault docDivPP ⟨"__BLOCK_0__", "A", "A"⟩ (by decide)).2 (by decide)⟩

/-- C5 (amended): `units` and `mapping` are built by paired pushes, and the
pushed text equals the mapped text for every unit except JSON-LD units; a
JSON-LD unit maps the raw script content while its pushed text is the
re-serialization `JSON.stringify(JSON.parse(content))` of that content. -/
theorem C5_units_mapping_alignment (cfg : TranslatorConfig) (doc : Node) :
    ∀ u ∈ (extractTranslatableContent cfg doc).units,
      u.mapped = u.text ∨
      ∃ i j, u.key = "__JSON_LD_" ++ natRepr i ++ "__"
        ∧ jsonParse u.mapped = some j ∧ u.text = jsonStringify j := by
  intro u hu
  rcases extract_units_mem cfg doc u hu with
    ⟨_, heq, _⟩ | ⟨heq, _, _⟩ | ⟨i, j, content, heq, hp⟩
  · exact Or.inl heq
  · exact Or.inl heq
  · right
    rw [heq]
    exact ⟨i, j, rfl, hp, rfl⟩

/-- Witness for C5: the amended theorem applied to the whitespace-content
JSON-LD document, whose single unit takes the JSON-LD disjunct. -/
theorem C5_units_mapping_alignment_witness :
    (jsonParse (ExUnit.mapped ⟨"__JSON_LD_0__", "true", "true "⟩)).isSome = true := by
  rcases C5_units_mapping_alignment cfgNoScripts docJsonLdWs
      ⟨"__JSON_LD_0__", "true", "true "⟩ (by decide) with h | ⟨i, j, _, hp, _⟩
  · exact absurd h (by decide)
  · rw [hp]
    rfl

/-- C3: innermost-block extraction.  For `<div><p>A</p><p>B</p></div>` the
extractor produces exactly the two units `__BLOCK_0__ = "A"` and
`__BLOCK_1__ = "B"` (the `div` is not a block-level candidate and is never
extracted), and in general every element chosen as a block unit has no
block-level descendant. -/
theorem C3_innermost_blocks :
    (extractTranslatableContent cfgDefault docDivPP).units
      = [⟨"__BLOCK_0__", "A", "A"⟩, ⟨"__BLOCK_1__", "B", "B"⟩]
    ∧ ∀ (inBody : Bool) (acc : BlockAcc) (n : Node) (e : Node),
        e ∈ (blockPassNode inBody acc n).2.chosen →
        e ∈ acc.chosen ∨ ∃ t a c, e = Node.elem t a c ∧ listHasBlock c = false :=
  ⟨by decide, fun inBody acc n => (blockPassNode_inv inBody acc n).2⟩

/-- Witness for C3: the general part applied to a concrete paragraph chosen
by the block pass, whose children contain no block-level element. -/
theorem C3_innermost_blocks_witness : listHasBlock [Node.text "A"] = false := by
  have hch : (blockPassNode true ⟨[], []⟩ (Node.elem "p" [] [Node.text "A"])).2.chosen
      = [Node.elem "p" [] [Node.text "A"]] := rfl
  have hm : Node.elem "p" [] [Node.text "A"]
      ∈ (blockPassNode true ⟨[], []⟩ (Node.elem "p" [] [Node.text "A"])).2.chosen := by
    rw [hch]
    exact List.mem_singleton.mpr rfl
  rcases C3_innermost_blocks.2 true ⟨[], []⟩ (Node.elem "p" [] [Node.text "A"]) _ hm with
    h | ⟨t, a, c, heq, hc⟩
  · exact absurd h (List.not_mem_nil _)
  · injection heq with h1 h2 h3
    rw [← h3] at hc
    exact hc

theorem exists_cons_of_ne_nil {α : Type} {l : List α} (h : l ≠ []) : ∃ a as, l = a :: as := by
  cases l with
  | nil => exact absurd rfl h
  | cons a as => exact ⟨a, as, rfl⟩

/-- C6: for every nonempty batch whose first attempt yields a well-shaped
response, `translateBatch` returns after that attempt with a record that has
an entry for every input text, with a value that falls back to the input
itself and so is nonempty whenever the input is; every position the
response missed is backfilled in the padded array with that position's
original text; and a shorter-than-input response raises at least one
count-mismatch diagnostic. -/
theorem C6_batch_covers_inputs (texts tr : List String) (tk : Nat) (outcomes : Nat → ApiOutcome)
    (hne : texts ≠ []) (h0 : outcomes 0 = ApiOutcome.success tr tk) :
    (translateBatch texts outcomes).result
      = Except.ok (buildResult texts (padTranslations texts tr))
    ∧ (∀ t ∈ texts, ∃ v, jsObjGet (buildResult texts (padTranslations texts tr)) t = some v
        ∧ (t ≠ "" → v ≠ ""))
    ∧ (∀ i, tr.length ≤ i → i < texts.length →
        (padTranslations texts tr).getD i "" = texts.getD i "")
    ∧ (tr.length < texts.length → 0 < (translateBatch texts outcomes).mismatchWarns) := by
  have hloop : translateBatch texts outcomes
      = ⟨.ok (buildResult texts (padTranslations texts tr)), 1, tk, mismatchWarnCount texts tr⟩ := by
    obtain ⟨a, as, rfl⟩ := exists_cons_of_ne_nil hne
    show translateBatchLoop (a :: as) outcomes (2 + 1) 0 0 = _
    rw [translateBatchLoop, h0]
    simp
  refine ⟨by rw [hloop], buildResult_covers texts (padTranslations texts tr),
    padTranslations_backfill texts tr, ?_⟩
  intro hlt
  rw [hloop]
  show 0 < mismatchWarnCount texts tr
  unfold mismatchWarnCount
  rw [if_neg (by omega)]
  omega

/-- Witness for C6: a three-text batch answered by a one-entry response is
backfilled with the second and third original texts, and the mismatch
diagnostic fires. -/
theorem C6_batch_covers_inputs_witness :
    (translateBatch ["a", "b", "c"] shortRespOutcomes).result
      = Except.ok [("a", "x"), ("b", "b"), ("c", "c")]
    ∧ 0 < (translateBatch ["a", "b", "c"] shortRespOutcomes).mismatchWarns := by
  have h := C6_batch_covers_inputs ["a", "b", "c"] ["x"] 7 shortRespOutcomes (by decide) rfl
  refine ⟨?_, h.2.2.2 (by decide)⟩
  rw [h.1]
  rfl

/-- C7 (amended): a malformed response increments the attempt counter but is
not retried — the call fails at once with the invalid-response error after a
single request, because only errors carrying the rate-limit status enter the
backoff branch; a rate-limited first attempt, by contrast, is retried and a
well-shaped second attempt succeeds with two requests made. -/
theorem C7_failure_modes :
    (∀ (texts : List String) (outcomes : Nat → ApiOutcome) (tk : Nat), texts ≠ [] →
        outcomes 0 = ApiOutcome.badShape tk →
        translateBatch texts outcomes = ⟨.error malformedFailMsg, 1, tk, 0⟩)
    ∧ (∀ (texts : List String) (outcomes : Nat → ApiOutcome) (tr : List String) (tk : Nat),
        texts ≠ [] → outcomes 0 = ApiOutcome.rateLimited →
        outcomes 1 = ApiOutcome.success tr tk →
        translateBatch texts outcomes
          = ⟨.ok (buildResult texts (padTranslations texts tr)), 2, tk,
              mismatchWarnCount texts tr⟩) := by
  constructor
  · intro texts outcomes tk hne h0
    obtain ⟨a, as, rfl⟩ := exists_cons_of_ne_nil hne
    show translateBatchLoop (a :: as) outcomes (2 + 1) 0 0 = _
    rw [translateBatchLoop, h0]
    simp
  · intro texts outcomes tr tk hne h0 h1
    obtain ⟨a, as, rfl⟩ := exists_cons_of_ne_nil hne
    show translateBatchLoop (a :: as) outcomes (2 + 1) 0 0 = _
    rw [translateBatchLoop, h0]
    have h2 : translateBatchLoop (a :: as) outcomes 2 (0 + 1) 0
        = ⟨.ok (buildResult (a :: as) (padTranslations (a :: as) tr)), 2, tk,
            mismatchWarnCount (a :: as) tr⟩ := by
      show translateBatchLoop (a :: as) outcomes (1 + 1) (0 + 1) 0 = _
      rw [translateBatchLoop]
      rw [show (0 + 1 : Nat) = 1 from rfl, h1]
      simp
    simp [h2]

/-- Witness for C7: the amended theorem applied to the malformed-then-ok
outcome stream. -/
theorem C7_failure_modes_witness :
    translateBatch ["a"] malformedThenOk = ⟨.error malformedFailMsg, 1, 5, 0⟩ :=
  C7_failure_modes.1 ["a"] malformedThenOk 5 (by decide) rfl

/-- C8: the resolution loop of `translateTexts` is total over the mapping —
every mapping entry produces one result entry under its key, in mapping
order; a key whose text has no entry (or an empty entry) in the merged
batch results is assigned its own original text, so the value is nonempty
whenever the original is; and every successful `translateTexts` run returns
exactly such a resolution. -/
theorem C8_resolve_total (mapping translated : List (String × String)) :
    (∀ kv ∈ mapping, ∃ v, (kv.1, v) ∈ resolveTranslations mapping translated
        ∧ (jsObjGet translated kv.2 = none → v = kv.2)
        ∧ (jsObjGet translated kv.2 = some "" → v = kv.2)
        ∧ (kv.2 ≠ "" → v ≠ ""))
    ∧ (resolveTranslations mapping translated).length = mapping.length
    ∧ ∀ (texts : List String) (outcomes : Nat → Nat → ApiOutcome) (r : List (String × String)),
        translateTexts texts mapping outcomes = Except.ok r →
        ∃ translated2, r = resolveTranslations mapping translated2 := by
  refine ⟨?_, by simp [resolveTranslations], ?_⟩
  · intro kv hkv
    refine ⟨resolveVal translated kv.2, ?_, ?_, ?_, ?_⟩
    · exact List.mem_map.mpr ⟨kv, hkv, rfl⟩
    · intro h
      unfold resolveVal
      rw [h]
    · intro h
      unfold resolveVal
      rw [h]
      simp
    · intro hne
      unfold resolveVal
      split
      · next w hw =>
        split
        · exact hne
        · next hw2 => exact hw2
      · exact hne
  · intro texts outcomes r h
    dsimp only [translateTexts] at h
    split at h
    · next t ht =>
      cases h
      exact ⟨t, rfl⟩
    · cases h

/-- Witness for C8: a one-entry mapping resolved against an empty batch
record keeps its key and falls back to its original text. -/
theorem C8_resolve_total_witness :
    ("K", "orig") ∈ resolveTranslations [("K", "orig")] [] := by
  obtain ⟨v, hv, hnone, _, _⟩ := (C8_resolve_total [("K", "orig")] []).1 ("K", "orig") (by decide)
  have h2 : v = "orig" := hnone rfl
  rw [h2] at hv
  exact hv
